import Mathlib

/-!
Verification of the retrieval fusion engine in
`backend/open_webui/retrieval/utils.py`.

Modelling conventions (a shallow embedding of the Python source):

* Relevance scores / distances are Python floats; they are modelled as `ℚ`
  (the claims only concern ordering and equality of scores, never rounding).
* Passage metadata is an arbitrary type parameter `M` in the merge layer;
  in the re-ranking layer (`RerankCompressor`) it is an association list
  with Python-dict update semantics, because the code writes a `"score"` key.
* A Python function that may raise is modelled as returning `Option`
  (`none` = an exception was raised and caught by the caller shown in the
  source); a function whose exceptions escape to the caller returns `Except`.
* The `md5` content hash used for deduplication is a deterministic function
  of the passage text; it is modelled as the text itself (distinct texts are
  assumed not to collide, which is also how the surrounding documentation
  describes the dedup: exact-match on content).
* Python `list.sort(key=..., reverse=r)` is a stable sort; for `reverse=True`
  it is documented to keep elements with equal keys in their original order.
  Both polarities are therefore embedded as `List.mergeSort` (a stable sort)
  with the comparison on the key, flipped when `reverse` is true.
-/

namespace RetrievalUtils

/-- One task result, as consumed by `merge_and_sort_query_results`: the
Python dicts carry `distances`/`documents`/`metadatas`, each wrapped in a
one-element outer list (`data["distances"][0]` …).  The fields here hold
those inner lists directly; the constant singleton wrapper is dropped. -/
structure SearchResult (M : Type) where
  distances : List ℚ
  documents : List String
  metadatas : List M
deriving DecidableEq, Repr

/-- Python `zip` over three lists: truncates to the shortest list, exactly as
`zip(distances, documents, metadatas)` does in the source. -/
def zip3 {α β γ : Type} : List α → List β → List γ → List (α × β × γ)
  | a :: as, b :: bs, c :: cs => (a, b, c) :: zip3 as bs cs
  | _, _, _ => []

/-- The `(distance, document, metadata)` triples contributed by one task
result, in input order (source line: `for distance, document, metadata in
zip(distances, documents, metadatas)`). -/
def taskTriples {M : Type} (r : SearchResult M) : List (ℚ × String × M) :=
  zip3 r.distances r.documents r.metadatas

/-- The flattened sequence of triples over all task results, in first-seen
order (the outer `for data in query_results` loop). -/
def flattenTriples {M : Type} (results : List (SearchResult M)) :
    List (ℚ × String × M) :=
  results.flatMap taskTriples

/-- The dedup loop of `merge_and_sort_query_results`: `seen` is the set of
content hashes already in `seen_hashes` (hashes modelled as the texts
themselves); a triple whose document was already seen is dropped, otherwise
it is kept and its document recorded.  The source has two syntactic branches
(one for all-string documents, one that skips non-string documents); for
string documents — the only kind in this model — both do exactly this. -/
def dedupByDoc {M : Type} : List (ℚ × String × M) → List String → List (ℚ × String × M)
  | [], _ => []
  | t :: ts, seen =>
    if t.2.1 ∈ seen then dedupByDoc ts seen
    else t :: dedupByDoc ts (t.2.1 :: seen)

/-- The set of seen content hashes after running the dedup loop. -/
def seenAfter {M : Type} : List (ℚ × String × M) → List String → List String
  | [], seen => seen
  | t :: ts, seen =>
    if t.2.1 ∈ seen then seenAfter ts seen
    else seenAfter ts (t.2.1 :: seen)

/-- Comparison used by `combined.sort(key=lambda x: x[0], reverse=reverse)`:
compare on the first component (the distance/score); `reverse=True` is
Python's stable descending sort, i.e. the stable sort by the flipped
comparison. -/
def sortLE {M : Type} (reverse : Bool) (a b : ℚ × String × M) : Bool :=
  if reverse then decide (b.1 ≤ a.1) else decide (a.1 ≤ b.1)

/-- The triple list underlying the output of `merge_and_sort_query_results`:
dedup in first-seen order, stable sort by distance with the requested
polarity, then truncate to the first `k` entries (`del combined[k:]`). -/
def mergedTriples {M : Type} (results : List (SearchResult M)) (k : Nat)
    (reverse : Bool) : List (ℚ × String × M) :=
  ((dedupByDoc (flattenTriples results) []).mergeSort (sortLE reverse)).take k

/-- Embedding of `merge_and_sort_query_results(query_results, k, reverse)`.
The `estimated_capacity` / `reserve` line in the source is a no-op (Python
lists have no `reserve`), and the early return for an empty `combined`
produces the same record as the general path would.  The output record holds
the inner lists of the Python result's singleton-wrapped fields. -/
def merge_and_sort_query_results {M : Type} (query_results : List (SearchResult M))
    (k : Nat) (reverse : Bool) : SearchResult M :=
  let combined := dedupByDoc (flattenTriples query_results) []
  if combined.isEmpty then
    { distances := [], documents := [], metadatas := [] }
  else
    let sorted := (combined.mergeSort (sortLE reverse)).take k
    { distances := sorted.map (·.1)
      documents := sorted.map (·.2.1)
      metadatas := sorted.map (·.2.2) }

/-- Embedding of `process_query` inside `query_collection_with_hybrid_search`:
`get cn` is the pre-fetched per-collection snapshot (`none` when the
`VECTOR_DB_CLIENT.get` future raised, in which case `process_query` raises
"Collection data … is unavailable" and the task fails); otherwise the task
runs `query_doc_with_hybrid_search`, abstracted as the capability `hybrid`
(`none` = that call raised, caught by `process_query`).  A task therefore
yields `some result` exactly when it succeeded. -/
def runTask {C M : Type} (get : String → Option C)
    (hybrid : String → C → String → Option (SearchResult M))
    (collection_name query : String) : Option (SearchResult M) :=
  match get collection_name with
  | none => none
  | some cd => hybrid collection_name cd query

/-- The task list of `query_collection_with_hybrid_search`:
`[(collection_name, query) for collection_name in collection_names for query
in queries]` — collection-major order. -/
def hybridTasks (collection_names queries : List String) : List (String × String) :=
  collection_names.flatMap fun cn => queries.map fun q => (cn, q)

/-- The successful task results, in task order (the source appends `result`
to `results` while iterating `task_results` in submission order). -/
def successList {C M : Type} (get : String → Option C)
    (hybrid : String → C → String → Option (SearchResult M))
    (collection_names queries : List String) : List (SearchResult M) :=
  (hybridTasks collection_names queries).filterMap fun t => runTask get hybrid t.1 t.2

/-- Embedding of `query_collection_with_hybrid_search`.  The snapshot fetch
(`VECTOR_DB_CLIENT.get`, once per collection) and the per-task hybrid search
are the capabilities `get` and `hybrid`; `chroma` is the global
`VECTOR_DB == "chroma"` flag selecting the sort polarity.  The function
raises (returns `Except.error`) exactly when `error and not results`:
at least one task failed and no task succeeded. -/
def query_collection_with_hybrid_search {C M : Type} (get : String → Option C)
    (hybrid : String → C → String → Option (SearchResult M))
    (collection_names queries : List String) (k : Nat) (chroma : Bool) :
    Except String (SearchResult M) :=
  let tasks := hybridTasks collection_names queries
  let task_results := tasks.map fun t => runTask get hybrid t.1 t.2
  let results := task_results.filterMap id
  let error := task_results.any fun r => r.isNone
  if error && results.isEmpty then
    Except.error "Hybrid search failed for all collections. Using Non-hybrid search as fallback."
  else if chroma then
    Except.ok (merge_and_sort_query_results results k false)
  else
    Except.ok (merge_and_sort_query_results results k true)

/-- Embedding of `query_collection` (the plain, non-hybrid fan-out).  The
loops run query-major (`for query in queries: for collection_name in
collection_names`); a falsy (empty) collection name is skipped; `search cn e`
abstracts `query_doc` (`none` = it raised, caught and logged, or returned
`None`).  The embedding of each query happens once per query, outside the
per-collection try block. -/
def query_collection {E M : Type} (search : String → E → Option (SearchResult M))
    (embedding_function : String → E) (collection_names queries : List String)
    (k : Nat) (chroma : Bool) : SearchResult M :=
  let results := queries.flatMap fun query =>
    let query_embedding := embedding_function query
    collection_names.filterMap fun cn =>
      if cn = "" then none else search cn query_embedding
  if chroma then merge_and_sort_query_results results k false
  else merge_and_sort_query_results results k true

/-- A metadata value in a re-ranked document: a string (provenance fields)
or a number (the attached score). -/
inductive MVal : Type
  | str (s : String)
  | num (q : ℚ)
deriving DecidableEq, Repr

/-- Document metadata: a Python dict of string keys, modelled as an
association list with insertion order. -/
abbrev Meta : Type := List (String × MVal)

/-- Python dict update `m[key] = v`: replace the value in place if the key
exists, else append the new pair. -/
def metaSet : Meta → String → MVal → Meta
  | [], key, v => [(key, v)]
  | (x, w) :: rest, key, v =>
    if x = key then (key, v) :: rest else (x, w) :: metaSet rest key v

/-- Python dict lookup `m.get(key)`. -/
def metaLookup : Meta → String → Option MVal
  | [], _ => none
  | (x, w) :: rest, key => if x = key then some w else metaLookup rest key

/-- The numeric value stored under the reserved `"score"` key, if any. -/
def getScore (m : Meta) : Option ℚ :=
  match metaLookup m "score" with
  | some (MVal.num q) => some q
  | _ => none

/-- A langchain `Document` as used by `RerankCompressor.compress_documents`. -/
structure Doc where
  page_content : String
  metadata : Meta
deriving DecidableEq

/-- The tunable state of `RerankCompressor`.  Its two capability fields
(`embedding_function`, `reranking_function`) are abstracted into the per-call
scoring capability `predict` below: both the re-ranking branch
(`reranking_function.predict` over `(query, page_content)` pairs) and the
cosine-similarity fallback produce one score per input document, in input
order. -/
structure RerankCompressor where
  top_n : Nat
  r_score : ℚ

/-- Comparison used by `sorted(docs_with_scores, key=operator.itemgetter(1),
reverse=True)`: stable descending sort on the score component. -/
def docLE (a b : Doc × ℚ) : Bool := decide (b.2 ≤ a.2)

/-- Embedding of `RerankCompressor.compress_documents`: score every document
(`predict query page_content`), zip documents with scores, apply the hard
`r_score` filter when `r_score` is truthy (nonzero, per Python float
truthiness), stable-sort by score descending, truncate to `top_n`, and write
each kept score into the document's metadata under `"score"`. -/
def RerankCompressor.compress_documents (self : RerankCompressor)
    (predict : String → String → ℚ) (documents : List Doc) (query : String) :
    List Doc :=
  let scores := documents.map fun d => predict query d.page_content
  let docs_with_scores := documents.zip scores
  let docs_with_scores :=
    if self.r_score ≠ 0 then
      docs_with_scores.filter fun p => decide (self.r_score ≤ p.2)
    else docs_with_scores
  let result := docs_with_scores.mergeSort docLE
  (result.take self.top_n).map fun p =>
    { page_content := p.1.page_content
      metadata := metaSet p.1.metadata "score" (MVal.num p.2) }

/-! Helper lemmas about the dedup loop, the flattening, and the sort. -/

/-- A triple surviving the dedup loop was not previously seen. -/
theorem mem_dedupByDoc_not_seen {M : Type} {l : List (ℚ × String × M)}
    {seen : List String} {t : ℚ × String × M} (h : t ∈ dedupByDoc l seen) :
    t.2.1 ∉ seen := by
  induction l generalizing seen with
  | nil => simp [dedupByDoc] at h
  | cons u us ih =>
    by_cases hu : u.2.1 ∈ seen
    · rw [dedupByDoc, if_pos hu] at h
      exact ih h
    · rw [dedupByDoc, if_neg hu] at h
      rcases List.mem_cons.mp h with rfl | h'
      · exact hu
      · intro hc
        exact ih h' (List.mem_cons_of_mem _ hc)

/-- The texts surviving the dedup loop are pairwise distinct. -/
theorem nodup_dedupByDoc_docs {M : Type} {l : List (ℚ × String × M)}
    {seen : List String} : ((dedupByDoc l seen).map (·.2.1)).Nodup := by
  induction l generalizing seen with
  | nil => simp [dedupByDoc]
  | cons u us ih =>
    by_cases hu : u.2.1 ∈ seen
    · rw [dedupByDoc, if_pos hu]
      exact ih
    · rw [dedupByDoc, if_neg hu]
      simp only [List.map_cons, List.nodup_cons]
      refine ⟨?_, ih⟩
      intro hc
      rcases List.mem_map.mp hc with ⟨t, ht, hdoc⟩
      exact mem_dedupByDoc_not_seen ht (by rw [hdoc]; exact List.mem_cons_self _ _)

/-- A triple surviving the dedup loop is the first occurrence of its text in
the processed sequence. -/
theorem find?_of_mem_dedupByDoc {M : Type} {l : List (ℚ × String × M)}
    {seen : List String} {t : ℚ × String × M} (h : t ∈ dedupByDoc l seen) :
    l.find? (fun u => decide (u.2.1 = t.2.1)) = some t := by
  induction l generalizing seen with
  | nil => simp [dedupByDoc] at h
  | cons u us ih =>
    by_cases hu : u.2.1 ∈ seen
    · rw [dedupByDoc, if_pos hu] at h
      have hne : ¬ (u.2.1 = t.2.1) := by
        intro he
        exact mem_dedupByDoc_not_seen h (he ▸ hu)
      rw [List.find?_cons_of_neg _ (by simpa using hne)]
      exact ih h
    · rw [dedupByDoc, if_neg hu] at h
      rcases List.mem_cons.mp h with rfl | h'
      · rw [List.find?_cons_of_pos _ (by simp)]
      · have hnt : t.2.1 ∉ u.2.1 :: seen := mem_dedupByDoc_not_seen h'
        have hne : ¬ (u.2.1 = t.2.1) := by
          intro he
          exact hnt (he ▸ List.mem_cons_self _ _)
        rw [List.find?_cons_of_neg _ (by simpa using hne)]
        exact ih h'

/-- Splitting the dedup loop over an append. -/
theorem dedupByDoc_append {M : Type} (l1 l2 : List (ℚ × String × M))
    (seen : List String) :
    dedupByDoc (l1 ++ l2) seen
      = dedupByDoc l1 seen ++ dedupByDoc l2 (seenAfter l1 seen) := by
  induction l1 generalizing seen with
  | nil => simp [dedupByDoc, seenAfter]
  | cons u us ih =>
    by_cases hu : u.2.1 ∈ seen
    · simp only [List.cons_append, dedupByDoc, seenAfter, if_pos hu, List.append_eq, ih]
    · simp only [List.cons_append, dedupByDoc, seenAfter, if_neg hu, List.append_eq, ih,
        List.nil_append]

/-- The seen-set only grows. -/
theorem subset_seenAfter {M : Type} (l : List (ℚ × String × M))
    (seen : List String) : seen ⊆ seenAfter l seen := by
  induction l generalizing seen with
  | nil => simp [seenAfter]
  | cons u us ih =>
    by_cases hu : u.2.1 ∈ seen
    · rw [seenAfter, if_pos hu]
      exact ih seen
    · rw [seenAfter, if_neg hu]
      exact fun x hx => ih (u.2.1 :: seen) (List.mem_cons_of_mem _ hx)

/-- After the dedup loop runs over `l`, every text of `l` has been seen. -/
theorem doc_mem_seenAfter {M : Type} {t : ℚ × String × M} :
    ∀ (l : List (ℚ × String × M)) (seen : List String), t ∈ l →
      t.2.1 ∈ seenAfter l seen
  | [], _, ht => by simp at ht
  | u :: us, seen, ht => by
    rcases List.mem_cons.mp ht with rfl | ht'
    · by_cases hu : t.2.1 ∈ seen
      · rw [seenAfter, if_pos hu]
        exact subset_seenAfter us seen hu
      · rw [seenAfter, if_neg hu]
        exact subset_seenAfter us _ (List.mem_cons_self _ _)
    · by_cases hu : u.2.1 ∈ seen
      · rw [seenAfter, if_pos hu]
        exact doc_mem_seenAfter us seen ht'
      · rw [seenAfter, if_neg hu]
        exact doc_mem_seenAfter us _ ht'

/-- The dedup loop drops everything when every text was already seen. -/
theorem dedupByDoc_eq_nil {M : Type} :
    ∀ (l : List (ℚ × String × M)) (seen : List String),
      (∀ t ∈ l, t.2.1 ∈ seen) → dedupByDoc l seen = []
  | [], _, _ => rfl
  | u :: us, seen, h => by
    have hu : u.2.1 ∈ seen := h u (List.mem_cons_self _ _)
    rw [dedupByDoc, if_pos hu]
    exact dedupByDoc_eq_nil us seen (fun t ht => h t (List.mem_cons_of_mem _ ht))

/-- The texts surviving the dedup loop are exactly the distinct input texts
not seen before. -/
theorem toFinset_dedupByDoc_docs {M : Type} :
    ∀ (l : List (ℚ × String × M)) (seen : List String),
      ((dedupByDoc l seen).map (·.2.1)).toFinset
        = (l.map (·.2.1)).toFinset \ seen.toFinset
  | [], seen => by simp [dedupByDoc]
  | u :: us, seen => by
    by_cases hu : u.2.1 ∈ seen
    · rw [dedupByDoc, if_pos hu, toFinset_dedupByDoc_docs us seen]
      ext x
      simp only [List.map_cons, List.toFinset_cons, Finset.mem_sdiff,
        Finset.mem_insert, List.mem_toFinset]
      constructor
      · rintro ⟨h1, h2⟩
        exact ⟨Or.inr h1, h2⟩
      · rintro ⟨h1 | h1, h2⟩
        · subst h1
          exact absurd hu h2
        · exact ⟨h1, h2⟩
    · rw [dedupByDoc, if_neg hu]
      have ih := toFinset_dedupByDoc_docs us (u.2.1 :: seen)
      simp only [List.map_cons, List.toFinset_cons, ih]
      ext x
      simp only [Finset.mem_insert, Finset.mem_sdiff, List.mem_toFinset,
        List.toFinset_cons]
      constructor
      · rintro (rfl | ⟨h1, h2⟩)
        · exact ⟨Or.inl rfl, hu⟩
        · push_neg at h2
          exact ⟨Or.inr h1, h2.2⟩
      · rintro ⟨h1 | h1, h2⟩
        · exact Or.inl h1
        · by_cases hx : x = u.2.1
          · exact Or.inl hx
          · refine Or.inr ⟨h1, ?_⟩
            push_neg
            exact ⟨hx, h2⟩

/-- Python `zip` over three equal-length lists projects back to the middle
list. -/
theorem zip3_map_docs {α β γ : Type} :
    ∀ (a : List α) (b : List β) (c : List γ), a.length = b.length →
      b.length = c.length → (zip3 a b c).map (fun t => t.2.1) = b
  | [], [], _, _, _ => rfl
  | [], b :: bs, _, h1, _ => by simp at h1
  | a :: as, [], _, h1, _ => by simp at h1
  | a :: as, b :: bs, [], _, h2 => by simp at h2
  | a :: as, b :: bs, c :: cs, h1, h2 => by
    simp only [zip3, List.map_cons]
    rw [zip3_map_docs as bs cs (by simpa using h1) (by simpa using h2)]

/-- Python `zip` with an empty middle list is empty. -/
theorem zip3_nil_mid {α β γ : Type} (a : List α) (c : List γ) :
    zip3 a ([] : List β) c = [] := by
  cases a <;> cases c <;> rfl

/-- The sort comparison is transitive, for either polarity. -/
theorem sortLE_trans {M : Type} (reverse : Bool) (a b c : ℚ × String × M)
    (hab : sortLE reverse a b) (hbc : sortLE reverse b c) : sortLE reverse a c := by
  cases reverse <;> simp only [sortLE, if_true, if_false, decide_eq_true_eq,
    Bool.false_eq_true, Bool.true_eq_false, reduceIte] at hab hbc ⊢
  · exact le_trans hab hbc
  · exact le_trans hbc hab

/-- The sort comparison is total, for either polarity. -/
theorem sortLE_total {M : Type} (reverse : Bool) (a b : ℚ × String × M) :
    sortLE reverse a b || sortLE reverse b a := by
  cases reverse <;> simp [sortLE] <;> exact le_total _ _

/-- Stability of the stable sort, phrased through filters: the elements
satisfying a predicate that forces the comparison to hold both ways keep
exactly their pre-sort order. -/
theorem filter_mergeSort_eq {α : Type} (le : α → α → Bool)
    (htrans : ∀ a b c, le a b → le b c → le a c)
    (htotal : ∀ a b, le a b || le b a)
    (P : α → Bool) (hP : ∀ a b, P a → P b → le a b) (l : List α) :
    (l.mergeSort le).filter P = l.filter P := by
  have hpair : (l.filter P).Pairwise (fun a b => le a b) :=
    List.pairwise_of_forall_mem_list (fun a ha b hb =>
      hP a b (List.of_mem_filter ha) (List.of_mem_filter hb))
  have hsub : List.Sublist (l.filter P) (l.mergeSort le) :=
    List.sublist_mergeSort htrans htotal hpair (List.filter_sublist l)
  have hsub2 : List.Sublist (l.filter P) ((l.mergeSort le).filter P) := by
    have h2 := List.Sublist.filter P hsub
    have h3 : (l.filter P).filter P = l.filter P := by
      rw [List.filter_filter]
      simp
    rwa [h3] at h2
  have hperm : ((l.mergeSort le).filter P).Perm (l.filter P) :=
    (List.mergeSort_perm l le).filter P
  exact (hsub2.eq_of_length hperm.length_eq.symm).symm

/-- The output record of the merge is the unzip of `mergedTriples`. -/
theorem merge_and_sort_query_results_def {M : Type}
    (results : List (SearchResult M)) (k : Nat) (reverse : Bool) :
    merge_and_sort_query_results results k reverse =
      { distances := (mergedTriples results k reverse).map (·.1)
        documents := (mergedTriples results k reverse).map (·.2.1)
        metadatas := (mergedTriples results k reverse).map (·.2.2) } := by
  simp only [merge_and_sort_query_results, mergedTriples]
  split
  · rename_i h
    rw [List.isEmpty_iff] at h
    rw [h]
    simp
  · rfl

/-- Merging an empty list of task results yields the well-formed empty
record. -/
theorem merge_nil {M : Type} (k : Nat) (reverse : Bool) :
    merge_and_sort_query_results ([] : List (SearchResult M)) k reverse
      = { distances := [], documents := [], metadatas := [] } := rfl

/-- The rerank sort comparison is transitive. -/
theorem docLE_trans (a b c : Doc × ℚ) (hab : docLE a b) (hbc : docLE b c) :
    docLE a c := by
  simp only [docLE, decide_eq_true_eq] at hab hbc ⊢
  exact le_trans hbc hab

/-- The rerank sort comparison is total. -/
theorem docLE_total (a b : Doc × ℚ) : docLE a b || docLE b a := by
  simp [docLE]
  exact le_total _ _

/-- Looking up a key just written to a metadata dict returns the new value. -/
theorem metaLookup_metaSet (m : Meta) (key : String) (v : MVal) :
    metaLookup (metaSet m key v) key = some v := by
  induction m with
  | nil => simp [metaSet, metaLookup]
  | cons p rest ih =>
    obtain ⟨x, w⟩ := p
    by_cases hx : x = key
    · simp [metaSet, hx, metaLookup]
    · simp [metaSet, hx, metaLookup, ih]

/-- Writing the score key makes `getScore` return that score. -/
theorem getScore_metaSet (m : Meta) (s : ℚ) :
    getScore (metaSet m "score" (MVal.num s)) = some s := by
  unfold getScore
  rw [metaLookup_metaSet]

/-- Task list membership is the Cartesian product of the two input lists. -/
theorem mem_hybridTasks {cns qs : List String} {cn q : String} :
    (cn, q) ∈ hybridTasks cns qs ↔ cn ∈ cns ∧ q ∈ qs := by
  simp [hybridTasks, List.mem_flatMap]

/-- With at least one collection and one query there is at least one task. -/
theorem hybridTasks_ne_nil {cns qs : List String} (h1 : cns ≠ []) (h2 : qs ≠ []) :
    hybridTasks cns qs ≠ [] := by
  obtain ⟨c, cs, rfl⟩ := List.exists_cons_of_ne_nil h1
  obtain ⟨q, qs', rfl⟩ := List.exists_cons_of_ne_nil h2
  simp [hybridTasks]

/-- The successful results are the task outputs with the failures dropped. -/
theorem successList_eq {C M : Type} (get : String → Option C)
    (hybrid : String → C → String → Option (SearchResult M))
    (cns qs : List String) :
    successList get hybrid cns qs
      = ((hybridTasks cns qs).map fun t => runTask get hybrid t.1 t.2).filterMap id := by
  rw [List.filterMap_map]
  rfl

/-- A task against a collection whose snapshot fetch failed fails. -/
theorem runTask_get_none {C M : Type} {get : String → Option C}
    {hybrid : String → C → String → Option (SearchResult M)} {cn q : String}
    (h : get cn = none) : runTask get hybrid cn q = none := by
  unfold runTask
  rw [h]

/-- For well-formed task results the flattened triples project back to the
concatenation of the document lists. -/
theorem flattenTriples_map_docs {M : Type} :
    ∀ (results : List (SearchResult M)),
      (∀ r ∈ results, r.distances.length = r.documents.length ∧
        r.documents.length = r.metadatas.length) →
      (flattenTriples results).map (·.2.1) = results.flatMap (fun r => r.documents)
  | [], _ => rfl
  | r :: rs, hw => by
    have h1 := hw r (List.mem_cons_self _ _)
    have ih := flattenTriples_map_docs rs (fun x hx => hw x (List.mem_cons_of_mem _ hx))
    unfold flattenTriples at ih ⊢
    rw [List.flatMap_cons, List.flatMap_cons, List.map_append, ih,
      show (taskTriples r).map (·.2.1) = r.documents from
        zip3_map_docs _ _ _ h1.1 h1.2]

/-! The claims. -/

/-- Claim C1: every passage text in the output of
`merge_and_sort_query_results` is unique, and every surviving entry is
exactly the first-seen occurrence of its text in the flattened inputs — its
distance and metadata are the first occurrence's, and all later duplicates
are dropped. -/
theorem C1_dedup_unique_first_seen {M : Type} (results : List (SearchResult M))
    (k : Nat) (reverse : Bool) :
    (merge_and_sort_query_results results k reverse).documents.Nodup ∧
    ∀ t ∈ mergedTriples results k reverse,
      (flattenTriples results).find? (fun u => decide (u.2.1 = t.2.1)) = some t := by
  constructor
  · rw [merge_and_sort_query_results_def]
    show ((mergedTriples results k reverse).map (·.2.1)).Nodup
    unfold mergedTriples
    rw [List.map_take]
    refine List.Nodup.sublist (List.take_sublist _ _) ?_
    have hperm :
        (((dedupByDoc (flattenTriples results) []).mergeSort (sortLE reverse)).map (·.2.1)).Perm
          ((dedupByDoc (flattenTriples results) []).map (·.2.1)) :=
      (List.mergeSort_perm _ _).map _
    exact hperm.symm.nodup nodup_dedupByDoc_docs
  · intro t ht
    unfold mergedTriples at ht
    have h2 : t ∈ dedupByDoc (flattenTriples results) [] :=
      List.mem_mergeSort.mp ((List.take_sublist _ _).subset ht)
    exact find?_of_mem_dedupByDoc h2

/-- Claim C2: the output is the stable sort of the deduplicated first-seen
flattened sequence under the polarity flag: with `reverse = true` adjacent
distances are non-increasing, with `reverse = false` non-decreasing, and for
every score value the output's candidates carrying that score are an initial
segment of the dedup sequence's candidates carrying it, i.e. equal scores
keep their first-seen flattened order. -/
theorem C2_stable_sort_polarity {M : Type} (results : List (SearchResult M))
    (k : Nat) :
    List.Chain' (fun a b : ℚ => b ≤ a)
      (merge_and_sort_query_results results k true).distances ∧
    List.Chain' (fun a b : ℚ => a ≤ b)
      (merge_and_sort_query_results results k false).distances ∧
    ∀ (reverse : Bool) (s : ℚ),
      List.IsPrefix
        ((mergedTriples results k reverse).filter (fun t => decide (t.1 = s)))
        ((dedupByDoc (flattenTriples results) []).filter (fun t => decide (t.1 = s))) := by
  have hchain : ∀ reverse : Bool,
      List.Chain' (fun a b : ℚ × String × M => sortLE reverse a b)
        (mergedTriples results k reverse) := by
    intro reverse
    unfold mergedTriples
    refine List.Pairwise.chain' ?_
    refine List.Pairwise.sublist (List.take_sublist _ _) ?_
    exact List.sorted_mergeSort (sortLE_trans reverse) (sortLE_total reverse) _
  refine ⟨?_, ?_, ?_⟩
  · rw [merge_and_sort_query_results_def]
    show List.Chain' _ ((mergedTriples results k true).map (·.1))
    rw [List.chain'_map]
    refine (hchain true).imp ?_
    intro a b hab
    simpa [sortLE] using hab
  · rw [merge_and_sort_query_results_def]
    show List.Chain' _ ((mergedTriples results k false).map (·.1))
    rw [List.chain'_map]
    refine (hchain false).imp ?_
    intro a b hab
    simpa [sortLE] using hab
  · intro reverse s
    unfold mergedTriples
    have hP : ∀ a b : ℚ × String × M,
        decide (a.1 = s) → decide (b.1 = s) → sortLE reverse a b := by
      intro a b ha hb
      rw [decide_eq_true_eq] at ha hb
      cases reverse <;> simp [sortLE, ha, hb]
    have hstable := filter_mergeSort_eq (sortLE reverse) (sortLE_trans reverse)
      (sortLE_total reverse) (fun t => decide (t.1 = s)) hP
      (dedupByDoc (flattenTriples results) [])
    rw [← hstable]
    have htp := List.take_prefix k
      ((dedupByDoc (flattenTriples results) []).mergeSort (sortLE reverse))
    exact List.IsPrefix.filter _ htp

/-- Claim C3: for well-formed inputs (equal-length field lists per task
result), the merged output length is `min k` (number of distinct passage
texts across all inputs). -/
theorem C3_bounded_output {M : Type} (results : List (SearchResult M)) (k : Nat)
    (reverse : Bool)
    (hw : ∀ r ∈ results, r.distances.length = r.documents.length ∧
        r.documents.length = r.metadatas.length) :
    (merge_and_sort_query_results results k reverse).documents.length
      = min k ((results.flatMap (fun r => r.documents)).toFinset.card) := by
  rw [merge_and_sort_query_results_def]
  show ((mergedTriples results k reverse).map (·.2.1)).length = _
  rw [List.length_map]
  unfold mergedTriples
  rw [List.length_take, List.length_mergeSort]
  have hlen : (dedupByDoc (flattenTriples results) []).length
      = ((flattenTriples results).map (·.2.1)).toFinset.card := by
    have h1 := toFinset_dedupByDoc_docs (flattenTriples results) []
    simp only [List.toFinset_nil, Finset.sdiff_empty] at h1
    rw [← h1, List.toFinset_card_of_nodup nodup_dedupByDoc_docs, List.length_map]
  rw [hlen, flattenTriples_map_docs results hw]

/-- A concrete well-formed task result used by witnesses. -/
def exTask : SearchResult ℕ :=
  { distances := [1, 2], documents := ["a", "b"], metadatas := [0, 0] }

/-- Witness for claim C3 at a concrete well-formed input. -/
theorem C3_bounded_output_witness :
    (merge_and_sort_query_results [exTask] 5 true).documents.length
      = min 5 (([exTask].flatMap (fun r => r.documents)).toFinset.card) :=
  C3_bounded_output _ 5 true (by
    intro r hr
    rw [List.mem_singleton] at hr
    subst hr
    exact ⟨rfl, rfl⟩)

/-- Claim C8: merging a duplicated input list equals merging it once. -/
theorem C8_merge_idempotent {M : Type} (results : List (SearchResult M))
    (k : Nat) (reverse : Bool) :
    merge_and_sort_query_results (results ++ results) k reverse
      = merge_and_sort_query_results results k reverse := by
  have hflat : flattenTriples (results ++ results)
      = flattenTriples results ++ flattenTriples results := by
    unfold flattenTriples
    rw [List.flatMap_append]
  have hdedup : dedupByDoc (flattenTriples (results ++ results)) []
      = dedupByDoc (flattenTriples results) [] := by
    rw [hflat, dedupByDoc_append,
      dedupByDoc_eq_nil _ _ (fun t ht => doc_mem_seenAfter _ _ ht), List.append_nil]
  simp only [merge_and_sort_query_results]
  rw [hdedup]

/-- Claim C9: an empty input list, or inputs containing no candidates,
produce the explicitly empty but well-formed record (empty sequences for
every field) — the function is total, it cannot return an absent value. -/
theorem C9_empty_input {M : Type} (k : Nat) (reverse : Bool) :
    merge_and_sort_query_results ([] : List (SearchResult M)) k reverse
        = { distances := [], documents := [], metadatas := [] } ∧
    ∀ results : List (SearchResult M), (∀ r ∈ results, r.documents = []) →
      merge_and_sort_query_results results k reverse
        = { distances := [], documents := [], metadatas := [] } := by
  refine ⟨merge_nil k reverse, ?_⟩
  intro results h
  have hflat : flattenTriples results = [] := by
    unfold flattenTriples
    rw [List.flatMap_eq_nil_iff]
    intro r hr
    unfold taskTriples
    rw [h r hr]
    exact zip3_nil_mid _ _
  simp only [merge_and_sort_query_results, hflat]
  rfl

/-- Witness for claim C9 at a concrete candidate-free input. -/
theorem C9_empty_input_witness :
    merge_and_sort_query_results
        [({ distances := [1], documents := [], metadatas := [] } : SearchResult ℕ)]
        3 true
      = { distances := [], documents := [], metadatas := [] } :=
  (C9_empty_input 3 true).2 _ (by
    intro r hr
    rw [List.mem_singleton] at hr
    subst hr
    rfl)

/-- Claim C4: for a non-empty task set, if every task fails the hybrid
fan-out raises the aggregate error (returning no partial result), and the
aggregate error is raised only when zero tasks succeeded. -/
theorem C4_total_failure {C M : Type} (get : String → Option C)
    (hybrid : String → C → String → Option (SearchResult M))
    (collection_names queries : List String) (k : Nat) (chroma : Bool)
    (hcn : collection_names ≠ []) (hq : queries ≠ []) :
    ((∀ cn ∈ collection_names, ∀ q ∈ queries, runTask get hybrid cn q = none) →
      query_collection_with_hybrid_search get hybrid collection_names queries k chroma
        = Except.error
            "Hybrid search failed for all collections. Using Non-hybrid search as fallback.") ∧
    (∀ e, query_collection_with_hybrid_search get hybrid collection_names queries k chroma
        = Except.error e →
      successList get hybrid collection_names queries = []) := by
  constructor
  · intro hfail
    have hmemfail : ∀ t ∈ hybridTasks collection_names queries,
        runTask get hybrid t.1 t.2 = none := by
      intro t ht
      obtain ⟨cn, q⟩ := t
      obtain ⟨h1, h2⟩ := mem_hybridTasks.mp ht
      exact hfail cn h1 q h2
    have hres : ((hybridTasks collection_names queries).map
        fun t => runTask get hybrid t.1 t.2).filterMap id = [] := by
      rw [List.filterMap_eq_nil_iff]
      intro a ha
      rcases List.mem_map.mp ha with ⟨t, ht, rfl⟩
      exact hmemfail t ht
    have herr : (((hybridTasks collection_names queries).map
        fun t => runTask get hybrid t.1 t.2).any fun r => r.isNone) = true := by
      obtain ⟨t, ht⟩ := List.exists_mem_of_ne_nil _ (hybridTasks_ne_nil hcn hq)
      rw [List.any_eq_true]
      refine ⟨runTask get hybrid t.1 t.2, List.mem_map_of_mem _ ht, ?_⟩
      rw [hmemfail t ht]
      rfl
    simp only [query_collection_with_hybrid_search]
    rw [if_pos]
    rw [herr, hres]
    rfl
  · intro e he
    simp only [query_collection_with_hybrid_search] at he
    by_cases hcond : ((((hybridTasks collection_names queries).map
        fun t => runTask get hybrid t.1 t.2).any fun r => r.isNone) &&
        (((hybridTasks collection_names queries).map
          fun t => runTask get hybrid t.1 t.2).filterMap id).isEmpty) = true
    · have h2 := (Bool.and_eq_true _ _).mp hcond
      rw [List.isEmpty_iff] at h2
      rw [successList_eq]
      exact h2.2
    · rw [if_neg hcond] at he
      split at he <;> exact Except.noConfusion he

/-- Witness for claim C4: one collection, one query, snapshot fetch fails. -/
theorem C4_total_failure_witness :
    query_collection_with_hybrid_search (fun _ => (none : Option Unit))
        (fun _ _ _ => (none : Option (SearchResult Unit))) ["c"] ["q"] 1 true
      = Except.error
          "Hybrid search failed for all collections. Using Non-hybrid search as fallback." :=
  (C4_total_failure _ _ _ _ 1 true (by simp) (by simp)).1 (by
    intro cn hcn q hq
    rfl)

/-- Claim C5: if at least one task succeeds, the hybrid fan-out raises no
error and returns exactly the merge of the successful tasks' results; a
collection whose snapshot fetch failed has all of its tasks fail, and its
presence does not change the successful results contributed by the other
collections. -/
theorem C5_best_effort_success {C M : Type} (get : String → Option C)
    (hybrid : String → C → String → Option (SearchResult M))
    (collection_names queries : List String) (k : Nat) (chroma : Bool)
    (hsucc : ∃ cn ∈ collection_names, ∃ q ∈ queries,
      runTask get hybrid cn q ≠ none) :
    query_collection_with_hybrid_search get hybrid collection_names queries k chroma
        = Except.ok (merge_and_sort_query_results
            (successList get hybrid collection_names queries) k (!chroma)) ∧
    (∀ cn q, get cn = none → runTask get hybrid cn q = none) ∧
    (∀ cn, get cn = none →
      successList get hybrid (cn :: collection_names) queries
        = successList get hybrid collection_names queries) := by
  have hne : successList get hybrid collection_names queries ≠ [] := by
    obtain ⟨cn, hcn, q, hq, hrt⟩ := hsucc
    intro h0
    rw [successList, List.filterMap_eq_nil_iff] at h0
    exact hrt (h0 (cn, q) (mem_hybridTasks.mpr ⟨hcn, hq⟩))
  refine ⟨?_, fun cn q h => runTask_get_none h, ?_⟩
  · simp only [query_collection_with_hybrid_search, ← successList_eq]
    have hempty : (successList get hybrid collection_names queries).isEmpty = false := by
      cases h : (successList get hybrid collection_names queries).isEmpty
      · rfl
      · rw [List.isEmpty_iff] at h
        exact absurd h hne
    rw [hempty, Bool.and_false]
    simp only [Bool.false_eq_true, if_false]
    cases chroma <;> rfl
  · intro cn h
    unfold successList hybridTasks
    rw [List.flatMap_cons, List.filterMap_append]
    have hzero : (queries.map fun q => (cn, q)).filterMap
        (fun t => runTask get hybrid t.1 t.2) = [] := by
      rw [List.filterMap_map, List.filterMap_eq_nil_iff]
      intro q hq
      exact runTask_get_none h
    rw [hzero, List.nil_append]

/-- A concrete task result for the C5 witness. -/
def exHybridResult : SearchResult Unit :=
  { distances := [1], documents := ["d"], metadatas := [()] }

/-- Witness for claim C5: one collection, one query, the task succeeds. -/
theorem C5_best_effort_success_witness :
    query_collection_with_hybrid_search (fun _ => some ())
        (fun _ _ _ => some exHybridResult) ["c"] ["q"] 3 false
      = Except.ok (merge_and_sort_query_results
          (successList (fun _ => some ()) (fun _ _ _ => some exHybridResult) ["c"] ["q"])
          3 (!false)) :=
  (C5_best_effort_success _ _ _ _ 3 false
    ⟨"c", by simp, "q", by simp, by simp [runTask]⟩).1

/-- Claim C10: the plain (non-hybrid) fan-out `query_collection` never
propagates a per-task failure: when every dense-search task fails it still
returns the well-formed empty merged record (it is a total function into
`SearchResult`, it cannot raise), unlike the hybrid path whose result type
admits an aggregate error. -/
theorem C10_plain_fanout_no_raise {E M : Type}
    (search : String → E → Option (SearchResult M))
    (embedding_function : String → E) (collection_names queries : List String)
    (k : Nat) (chroma : Bool)
    (hfail : ∀ cn ∈ collection_names, ∀ q ∈ queries,
      search cn (embedding_function q) = none) :
    query_collection search embedding_function collection_names queries k chroma
      = { distances := [], documents := [], metadatas := [] } := by
  have hres : (queries.flatMap fun query => collection_names.filterMap fun cn =>
      if cn = "" then none else search cn (embedding_function query))
      = ([] : List (SearchResult M)) := by
    rw [List.flatMap_eq_nil_iff]
    intro q hq
    rw [List.filterMap_eq_nil_iff]
    intro cn hcn
    by_cases h : cn = ""
    · rw [if_pos h]
    · rw [if_neg h]
      exact hfail cn hcn q hq
  simp only [query_collection, hres]
  cases chroma <;> rfl

/-- Witness for claim C10: one collection, one query, the task fails. -/
theorem C10_plain_fanout_no_raise_witness :
    query_collection (fun _ _ => (none : Option (SearchResult Unit)))
        (fun q => q) ["c"] ["q"] 2 false
      = { distances := [], documents := [], metadatas := [] } :=
  C10_plain_fanout_no_raise _ _ _ _ 2 false (by
    intro cn hcn q hq
    rfl)

/-- Concrete documents for the score-threshold example of the spec. -/
def exDoc1 : Doc := { page_content := "p1", metadata := [] }

/-- Second example document. -/
def exDoc2 : Doc := { page_content := "p2", metadata := [] }

/-- Third example document. -/
def exDoc3 : Doc := { page_content := "p3", metadata := [] }

/-- Scoring capability for the example: scores 0.9, 0.4, 0.6. -/
def exPredict : String → String → ℚ := fun _ t =>
  if t = "p1" then 0.9 else if t = "p2" then 0.4 else 0.6

unseal Rat.ofScientific List.merge List.mergeSort in
/-- Claim C6: with a nonzero threshold `r_score`, every candidate scoring
below it is removed — every document in the output carries a score at least
`r_score`; and concretely, with `min_score = 0.5` and candidate scores
`[0.9, 0.4, 0.6]` the output is exactly the 0.9- and 0.6-scored candidates,
in that order. -/
theorem C6_score_threshold_filter (self : RerankCompressor)
    (predict : String → String → ℚ) (documents : List Doc) (query : String)
    (h : self.r_score ≠ 0) :
    (∀ d ∈ self.compress_documents predict documents query,
      ∃ s : ℚ, getScore d.metadata = some s ∧ self.r_score ≤ s) ∧
    RerankCompressor.compress_documents { top_n := 2, r_score := 0.5 }
        exPredict [exDoc1, exDoc2, exDoc3] "q"
      = [{ page_content := "p1", metadata := [("score", MVal.num 0.9)] },
         { page_content := "p3", metadata := [("score", MVal.num 0.6)] }] := by
  constructor
  · intro d hd
    simp only [RerankCompressor.compress_documents] at hd
    rw [if_pos h] at hd
    rcases List.mem_map.mp hd with ⟨p, hp, rfl⟩
    refine ⟨p.2, getScore_metaSet _ _, ?_⟩
    have hp2 : p ∈ (documents.zip (documents.map fun d => predict query d.page_content)).filter
        fun p => decide (self.r_score ≤ p.2) :=
      List.mem_mergeSort.mp ((List.take_sublist _ _).subset hp)
    have := List.of_mem_filter hp2
    simpa using this
  · decide

/-- The top output document of the score-threshold example. -/
def exOut1 : Doc := { page_content := "p1", metadata := [("score", MVal.num 0.9)] }

unseal Rat.ofScientific List.merge List.mergeSort in
/-- Witness for claim C6 at the concrete threshold 0.5, applied to the
top-ranked output document. -/
theorem C6_score_threshold_filter_witness :
    ∃ s : ℚ, getScore exOut1.metadata = some s ∧ (0.5 : ℚ) ≤ s :=
  (C6_score_threshold_filter { top_n := 2, r_score := 0.5 } exPredict
    [exDoc1, exDoc2, exDoc3] "q" (by norm_num)).1 exOut1 (by decide)

/-- Claim C7: the output of `compress_documents` has length at most `top_n`,
every returned document carries its final score in its metadata under the
key `"score"`, and consecutive attached scores are non-increasing (sorted
descending). -/
theorem C7_sorted_bounded_scored (self : RerankCompressor)
    (predict : String → String → ℚ) (documents : List Doc) (query : String) :
    (self.compress_documents predict documents query).length ≤ self.top_n ∧
    (∀ d ∈ self.compress_documents predict documents query,
      ∃ s : ℚ, getScore d.metadata = some s) ∧
    List.Chain' (fun a b => ∀ sa sb : ℚ,
        getScore a.metadata = some sa → getScore b.metadata = some sb → sb ≤ sa)
      (self.compress_documents predict documents query) := by
  refine ⟨?_, ?_, ?_⟩
  · simp only [RerankCompressor.compress_documents]
    rw [List.length_map]
    exact List.length_take_le _ _
  · intro d hd
    simp only [RerankCompressor.compress_documents] at hd
    rcases List.mem_map.mp hd with ⟨p, hp, rfl⟩
    exact ⟨p.2, getScore_metaSet _ _⟩
  · simp only [RerankCompressor.compress_documents]
    rw [List.chain'_map]
    refine List.Pairwise.chain' (List.Pairwise.imp ?_
      (List.Pairwise.sublist (List.take_sublist _ _)
        (List.sorted_mergeSort docLE_trans docLE_total _)))
    intro a b hab sa sb hsa hsb
    rw [getScore_metaSet] at hsa hsb
    obtain rfl : a.2 = sa := Option.some.inj hsa
    obtain rfl : b.2 = sb := Option.some.inj hsb
    simpa [docLE] using hab

end RetrievalUtils
